import Mathlib

/-
  Verification of the resource-identification / resolution / dispatch core of
  the aws-sam-cli sync surface.

  Embedded from:
    - src/samcli/lib/sync/sync_flow_factory.py  (SyncFlowFactory)
    - the provider module (ResourceIdentifier, Stack, get_resource_by_id,
      get_resources_by_type), whose implementation is not part of the shown
      sources (only its unit tests are); those parts are modelled from the
      specification, and cross-checked against the unit tests in
      src/tests/unit/commands/local/lib/test_provider.py.
-/

set_option autoImplicit false

namespace SamCli

/-! ## Character-level path splitting

The identifier string format is a sequence of segments separated by the
character `/`.  Parsing splits on the LAST separator; these helpers give an
executable account of that lexical operation. -/

/-- Split a character list at its LAST occurrence of the separator character,
returning the characters before it and after it, or `none` when no separator
occurs.  This is the character-level content of a right-split with one
separator, the operation the identifier parser performs. -/
def splitAtLastSlash : List Char → Option (List Char × List Char)
  | [] => none
  | c :: rest =>
    match splitAtLastSlash rest with
    | some (pre, post) => some (c :: pre, post)
    | none => if c = '/' then some ([], rest) else none

/-- All segments of a character list, split on every separator.  The empty
list has one (empty) segment, matching the convention of string splitting. -/
def segsOf : List Char → List (List Char)
  | [] => [[]]
  | c :: rest =>
    if c = '/' then [] :: segsOf rest
    else
      match segsOf rest with
      | [] => [[c]]
      | s :: ss => (c :: s) :: ss

/-- Rejoin segments with the separator character; inverse of `segsOf`. -/
def joinSegs : List (List Char) → List Char
  | [] => []
  | [a] => a
  | a :: b :: rest => a ++ '/' :: joinSegs (b :: rest)

theorem segsOf_ne_nil (cs : List Char) : segsOf cs ≠ [] := by
  cases cs with
  | nil => simp [segsOf]
  | cons c rest =>
    simp only [segsOf]
    split
    · simp
    · split <;> simp

theorem joinSegs_segsOf (cs : List Char) : joinSegs (segsOf cs) = cs := by
  induction cs with
  | nil => rfl
  | cons c rest ih =>
    simp only [segsOf]
    split
    · rename_i hc
      obtain ⟨s, ss, hss⟩ := List.exists_cons_of_ne_nil (segsOf_ne_nil rest)
      rw [hss] at ih ⊢
      simpa [joinSegs, hc] using ih
    · rename_i hc
      cases hseg : segsOf rest with
      | nil => exact absurd hseg (segsOf_ne_nil rest)
      | cons s ss =>
        rw [hseg] at ih
        cases ss with
        | nil => simpa [joinSegs] using congrArg (c :: ·) ih
        | cons t ss2 => simpa [joinSegs] using congrArg (c :: ·) ih

theorem splitAtLastSlash_eq_none (cs : List Char) :
    splitAtLastSlash cs = none → '/' ∉ cs := by
  induction cs with
  | nil => intro _ h; cases h
  | cons c rest ih =>
    intro h
    simp only [splitAtLastSlash] at h
    cases hres : splitAtLastSlash rest with
    | some p => rw [hres] at h; cases h
    | none =>
      rw [hres] at h
      by_cases hc : c = '/'
      · simp [hc] at h
      · intro hmem
        cases hmem with
        | head => exact hc rfl
        | tail _ hm => exact ih hres hm

theorem splitAtLastSlash_eq_some (cs pre post : List Char) :
    splitAtLastSlash cs = some (pre, post) →
    cs = pre ++ '/' :: post ∧ '/' ∉ post := by
  induction cs generalizing pre post with
  | nil => intro h; cases h
  | cons c rest ih =>
    intro h
    simp only [splitAtLastSlash] at h
    cases hres : splitAtLastSlash rest with
    | some p =>
      rw [hres] at h
      obtain ⟨p1, p2⟩ := p
      have h' := Option.some.inj h
      obtain ⟨h1, h2⟩ := Prod.mk.inj h'
      obtain ⟨hrest, hpost⟩ := ih p1 p2 hres
      subst h1
      subst h2
      exact ⟨by simp [hrest], hpost⟩
    | none =>
      rw [hres] at h
      by_cases hc : c = '/'
      · simp only [hc, if_pos rfl] at h
        obtain ⟨h1, h2⟩ := Prod.mk.inj (Option.some.inj h)
        subst h1 h2 hc
        exact ⟨rfl, splitAtLastSlash_eq_none rest hres⟩
      · simp [hc] at h

theorem segsOf_no_slash (ys : List Char) : '/' ∉ ys → segsOf ys = [ys] := by
  induction ys with
  | nil => intro _; rfl
  | cons c rest ih =>
    intro h
    have hc : c ≠ '/' := fun he => h (he ▸ List.mem_cons_self c rest)
    have hrest : '/' ∉ rest := fun hm => h (List.mem_cons_of_mem c hm)
    simp [segsOf, hc, ih hrest]

theorem segsOf_append_slash (xs ys : List Char) :
    segsOf (xs ++ '/' :: ys) = segsOf xs ++ segsOf ys := by
  induction xs with
  | nil => simp [segsOf]
  | cons c rest ih =>
    by_cases hc : c = '/'
    · simp [segsOf, hc, ih]
    · simp only [List.cons_append, segsOf, if_neg hc, List.append_eq]
      obtain ⟨s, ss, hss⟩ := List.exists_cons_of_ne_nil (segsOf_ne_nil rest)
      rw [ih, hss]
      simp

/-! ## Resource Identifier

Modelled from the spec: the provider module's `ResourceIdentifier` class is
not among the shown sources (only its tests).  Per the spec it is an immutable
pair of a `/`-joined ancestor-stack path and a logical id, parsed from a raw
string by splitting on the last `/` (a total, purely lexical operation), and
serialized back by joining with `/` unless the stack path is empty. -/

structure ResourceIdentifier where
  stack_path : String
  logical_id : String
deriving DecidableEq, Repr

/-- Modelled from the spec: `parse(raw) -> ResourceIdentifier` splits the raw
string on its last `/`; the part before it becomes `stack_path` and the part
after it `logical_id`; with no `/` present the whole string is the
`logical_id` and `stack_path` is empty (the empty string yields both empty). -/
def ResourceIdentifier.parse (s : String) : ResourceIdentifier :=
  match splitAtLastSlash s.data with
  | some (pre, post) => ⟨String.mk pre, String.mk post⟩
  | none => ⟨"", s⟩

/-- Modelled from the spec: `to_string` is the inverse of `parse` — the stack
path and logical id joined with `/`, or just the logical id when the stack
path is empty. -/
def ResourceIdentifier.toString (r : ResourceIdentifier) : String :=
  if r.stack_path = "" then r.logical_id else r.stack_path ++ "/" ++ r.logical_id

/-- A well-formed identifier string per the spec's format
`segment/segment/.../logical_id`: either empty, or every `/`-separated
segment is non-empty. -/
def WellFormedIdString (s : String) : Prop :=
  s = "" ∨ ∀ seg ∈ segsOf s.data, seg ≠ []

instance (s : String) : Decidable (WellFormedIdString s) := by
  unfold WellFormedIdString
  infer_instance

theorem string_mk_eq_empty_iff (pre : List Char) : String.mk pre = "" ↔ pre = [] := by
  constructor
  · intro h
    have h2 := congrArg String.data h
    simpa using h2
  · intro h
    rw [h]

/-- C9: for every well-formed identifier string `s`, parsing is total and
splits on the last separator — the last segment becomes the logical id, the
preceding segments joined with the separator become the stack path (the empty
string yields both fields empty) — and serializing the parsed identifier
reproduces `s` exactly (round-trip). -/
theorem parse_splits_on_last_slash_and_round_trips (s : String)
    (h : WellFormedIdString s) :
    ResourceIdentifier.parse "" = ⟨"", ""⟩ ∧
    (ResourceIdentifier.parse s).logical_id = String.mk ((segsOf s.data).getLastD []) ∧
    (ResourceIdentifier.parse s).stack_path = String.mk (joinSegs (segsOf s.data).dropLast) ∧
    (ResourceIdentifier.parse s).toString = s := by
  refine ⟨rfl, ?_⟩
  cases hsplit : splitAtLastSlash s.data with
  | none =>
    have hno : '/' ∉ s.data := splitAtLastSlash_eq_none _ hsplit
    have hsegs : segsOf s.data = [s.data] := segsOf_no_slash _ hno
    have hp : ResourceIdentifier.parse s = ⟨"", s⟩ := by
      simp [ResourceIdentifier.parse, hsplit]
    rw [hp, hsegs]
    refine ⟨rfl, rfl, ?_⟩
    simp [ResourceIdentifier.toString]
  | some p =>
    obtain ⟨pre, post⟩ := p
    obtain ⟨hdata, hnopost⟩ := splitAtLastSlash_eq_some _ _ _ hsplit
    have hsegs : segsOf s.data = segsOf pre ++ [post] := by
      rw [hdata, segsOf_append_slash, segsOf_no_slash post hnopost]
    have hp : ResourceIdentifier.parse s = ⟨String.mk pre, String.mk post⟩ := by
      simp [ResourceIdentifier.parse, hsplit]
    have hprene : pre ≠ [] := by
      intro hpre
      subst hpre
      cases h with
      | inl hemp =>
        subst hemp
        have hnone : splitAtLastSlash ("" : String).data = none := rfl
        rw [hnone] at hsplit
        cases hsplit
      | inr hall =>
        have hmem : ([] : List Char) ∈ segsOf s.data := by
          rw [hsegs]
          simp [segsOf]
        exact hall [] hmem rfl
    rw [hp, hsegs]
    refine ⟨?_, ?_, ?_⟩
    · simp
    · simp [List.dropLast_concat, joinSegs_segsOf]
    · have hne : String.mk pre ≠ "" := fun hq =>
        hprene ((string_mk_eq_empty_iff pre).mp hq)
      simp only [ResourceIdentifier.toString, if_neg hne]
      apply String.ext
      rw [hdata]
      simp [String.data_append]

/-- Witness for the parsing claim: the theorem applied at the concrete nested
identifier string used by the repository's unit tests. -/
theorem parse_splits_witness :
    WellFormedIdString "NestedStack1/NestedNestedStack2/Function1" ∧
    (ResourceIdentifier.parse "NestedStack1/NestedNestedStack2/Function1").toString =
      "NestedStack1/NestedNestedStack2/Function1" ∧
    (ResourceIdentifier.parse "NestedStack1/NestedNestedStack2/Function1").logical_id =
      "Function1" := by
  refine ⟨by decide, ?_, by decide⟩
  exact (parse_splits_on_last_slash_and_round_trips
    "NestedStack1/NestedNestedStack2/Function1" (by decide)).2.2.2

/-! ## Stacks, resources and the Resolver

Modelled from the spec: the provider module's `Stack`, `get_resource_by_id`
and `get_resources_by_type` are not among the shown sources (only their unit
tests are). -/

/-- Modelled from the spec: a resource definition is an opaque structured
record with an optional `Type` field (string) and an optional `Properties`
sub-record; the one `Properties` member this core inspects is the
packaging-kind field `PackageType`, held here as `packageType` (`none` when
`Properties` or the field itself is absent). -/
structure Resource where
  type : Option String
  packageType : Option String
deriving DecidableEq, Repr

/-- Modelled from the spec: a `Stack` is one node of the flattened template
tree — its ancestor path (`""` for the root), its own name (`""` for the
root) and an insertion-ordered mapping of logical id to resource definition
for the resources declared directly in it.  Build-location fields are
external concerns and are not modelled. -/
structure Stack where
  parent_stack_path : String
  name : String
  resources : List (String × Resource)
deriving DecidableEq, Repr

/-- Modelled from the spec: joining two path components with the separator,
with an empty left component yielding the right component unchanged. -/
def pathJoin (a b : String) : String :=
  if a = "" then b else a ++ "/" ++ b

/-- Modelled from the spec: a stack's full path — the `/`-join of its
ancestor path and its own name, empty for the root stack — is what an
identifier's `stack_path` is matched against. -/
def Stack.fullPath (s : Stack) : String :=
  pathJoin s.parent_stack_path s.name

/-- Whether an insertion-ordered mapping contains a key. -/
def containsKey (m : List (String × Resource)) (k : String) : Bool :=
  m.any fun p => p.1 = k

/-- Lookup in an insertion-ordered mapping (first binding of the key). -/
def lookupResource (m : List (String × Resource)) (k : String) : Option Resource :=
  (m.find? fun p => p.1 = k).map Prod.snd

/-- Modelled from the spec: `get_resource_by_id(stacks, identifier,
explicit_nested)`.  With `explicit_nested` true — or with a non-empty
`identifier.stack_path`, which is always honored exactly — the target stack
is the stack whose full path equals `identifier.stack_path` exactly, and the
result is the lookup of `identifier.logical_id` in its resources (not-found
when no stack has that path, with no fallback search).  Otherwise a linear
scan over `stacks` in list order returns the first stack containing the
logical id in its resources; not-found is `none`, never an exception. -/
def get_resource_by_id (stks : List Stack) (ident : ResourceIdentifier)
    (explicit_nested : Bool) : Option Resource :=
  if explicit_nested = true ∨ ident.stack_path ≠ "" then
    match stks.find? (fun s => s.fullPath = ident.stack_path) with
    | none => none
    | some s => lookupResource s.resources ident.logical_id
  else
    match stks.find? (fun s => containsKey s.resources ident.logical_id) with
    | none => none
    | some s => lookupResource s.resources ident.logical_id

/-- The identifiers of the resources of one stack whose `Type` equals the
given type string, in declaration order, each built from the stack's full
path joined with the logical id. -/
def stackTypeIdents (s : Stack) (ty : String) : List ResourceIdentifier :=
  (s.resources.filter fun p => p.2.type = some ty).map
    fun p => ResourceIdentifier.parse (pathJoin s.fullPath p.1)

/-- Modelled from the spec: `get_resources_by_type(stacks, type_string)`
scans every stack in list order and, within each stack, its resources in
insertion order, emitting an identifier for every resource whose `Type`
equals the type string; an empty sequence (never a sentinel) when nothing
matches. -/
def get_resources_by_type : List Stack → String → List ResourceIdentifier
  | [], _ => []
  | s :: rest, ty => stackTypeIdents s ty ++ get_resources_by_type rest ty

theorem find_first_containing (lid : String) (pre : List Stack) (s : Stack)
    (rest : List Stack)
    (hpre : ∀ s2 ∈ pre, containsKey s2.resources lid = false)
    (hs : containsKey s.resources lid = true) :
    (pre ++ s :: rest).find? (fun s2 => containsKey s2.resources lid) = some s := by
  induction pre with
  | nil => simp [List.find?_cons_of_pos, hs]
  | cons a pre2 ih =>
    have ha : containsKey a.resources lid = false := hpre a (List.mem_cons_self a pre2)
    have h2 : ∀ s2 ∈ pre2, containsKey s2.resources lid = false := fun s2 hm =>
      hpre s2 (List.mem_cons_of_mem a hm)
    simpa [List.find?_cons_of_neg, ha] using ih h2

theorem find_by_path_unique (stks : List Stack) (path : String) (s : Stack)
    (hnodup : (stks.map Stack.fullPath).Nodup)
    (hmem : s ∈ stks) (hpath : s.fullPath = path) :
    stks.find? (fun s2 => s2.fullPath = path) = some s := by
  induction stks with
  | nil => cases hmem
  | cons a rest ih =>
    rcases List.mem_cons.mp hmem with heq | hmem2
    · subst heq
      simp [List.find?_cons_of_pos, hpath]
    · have hane : a.fullPath ≠ path := by
        intro habs
        have : a.fullPath ∈ rest.map Stack.fullPath := by
          rw [habs, ← hpath]
          exact List.mem_map_of_mem Stack.fullPath hmem2
        exact (List.nodup_cons.mp (by simpa using hnodup)).1 this
      have hrest : (rest.map Stack.fullPath).Nodup :=
        (List.nodup_cons.mp (by simpa using hnodup)).2
      simpa [List.find?_cons_of_neg, hane] using ih hrest hmem2

/-- C5: implicit-mode resolution — a non-empty stack path is honored exactly
as in explicit mode; an empty stack path triggers a linear scan in list
order whose first stack containing the logical id wins; and when no stack
contains the logical id the result is the not-found sentinel `none`, with no
exception possible (the operation is total). -/
theorem get_resource_by_id_implicit (stks : List Stack)
    (ident : ResourceIdentifier) :
    (ident.stack_path ≠ "" →
      get_resource_by_id stks ident false = get_resource_by_id stks ident true) ∧
    (ident.stack_path = "" →
      (∀ pre s rest, stks = pre ++ s :: rest →
        (∀ s2 ∈ pre, containsKey s2.resources ident.logical_id = false) →
        containsKey s.resources ident.logical_id = true →
        get_resource_by_id stks ident false =
          lookupResource s.resources ident.logical_id) ∧
      ((∀ s ∈ stks, containsKey s.resources ident.logical_id = false) →
        get_resource_by_id stks ident false = none)) := by
  constructor
  · intro hne
    simp [get_resource_by_id, hne]
  · intro hemp
    constructor
    · intro pre s rest hsplit hpre hs
      subst hsplit
      simp only [get_resource_by_id, hemp]
      rw [find_first_containing ident.logical_id pre s rest hpre hs]
      simp
    · intro hnone
      have hfind : stks.find? (fun s2 => containsKey s2.resources ident.logical_id)
          = none := by
        rw [List.find?_eq_none]
        intro s hmem
        simp [hnone s hmem]
      simp [get_resource_by_id, hemp, hfind]

/-- Witness for implicit resolution: in the unit-test fixture, the implicit
lookup of a logical id declared only in the deepest nested stack returns
that stack's resource, and a logical id declared nowhere yields `none`. -/
theorem get_resource_by_id_implicit_witness :
    get_resource_by_id
      [⟨"", "", [("Function1", ⟨some "TypeA", some "Body1"⟩)]⟩,
       ⟨"", "NestedStack1", [("Function1", ⟨some "TypeA", some "Body2"⟩)]⟩,
       ⟨"NestedStack1", "NestedNestedStack1", [("Function2", ⟨some "TypeB", some "Body3"⟩)]⟩]
      ⟨"", "Function2"⟩ false = some ⟨some "TypeB", some "Body3"⟩ ∧
    get_resource_by_id
      [⟨"", "", [("Function1", ⟨some "TypeA", some "Body1"⟩)]⟩,
       ⟨"", "NestedStack1", [("Function1", ⟨some "TypeA", some "Body2"⟩)]⟩,
       ⟨"NestedStack1", "NestedNestedStack1", [("Function2", ⟨some "TypeB", some "Body3"⟩)]⟩]
      ⟨"", "Function3"⟩ false = none := by
  constructor
  · have h := (get_resource_by_id_implicit
      [⟨"", "", [("Function1", ⟨some "TypeA", some "Body1"⟩)]⟩,
       ⟨"", "NestedStack1", [("Function1", ⟨some "TypeA", some "Body2"⟩)]⟩,
       ⟨"NestedStack1", "NestedNestedStack1", [("Function2", ⟨some "TypeB", some "Body3"⟩)]⟩]
      ⟨"", "Function2"⟩).2 rfl
    have h2 := h.1
      [⟨"", "", [("Function1", ⟨some "TypeA", some "Body1"⟩)]⟩,
       ⟨"", "NestedStack1", [("Function1", ⟨some "TypeA", some "Body2"⟩)]⟩]
      ⟨"NestedStack1", "NestedNestedStack1", [("Function2", ⟨some "TypeB", some "Body3"⟩)]⟩
      [] rfl (by decide) (by decide)
    rw [h2]
    decide
  · have h := (get_resource_by_id_implicit
      [⟨"", "", [("Function1", ⟨some "TypeA", some "Body1"⟩)]⟩,
       ⟨"", "NestedStack1", [("Function1", ⟨some "TypeA", some "Body2"⟩)]⟩,
       ⟨"NestedStack1", "NestedNestedStack1", [("Function2", ⟨some "TypeB", some "Body3"⟩)]⟩]
      ⟨"", "Function3"⟩).2 rfl
    exact h.2 (by decide)

/-- C6: explicit-mode resolution targets exactly the unique stack whose full
path equals the identifier's stack path: the result is that stack's lookup of
the logical id (so `none` when that stack lacks it), and `none` when no stack
has that path — never a fallback into another stack, even one defining the
same logical id. -/
theorem get_resource_by_id_explicit (stks : List Stack)
    (ident : ResourceIdentifier)
    (hnodup : (stks.map Stack.fullPath).Nodup) :
    (∀ s ∈ stks, s.fullPath = ident.stack_path →
      get_resource_by_id stks ident true =
        lookupResource s.resources ident.logical_id) ∧
    ((∀ s ∈ stks, s.fullPath ≠ ident.stack_path) →
      get_resource_by_id stks ident true = none) := by
  constructor
  · intro s hmem hpath
    simp only [get_resource_by_id]
    rw [if_pos (Or.inl trivial)]
    rw [find_by_path_unique stks ident.stack_path s hnodup hmem hpath]
  · intro hnone
    have hfind : stks.find? (fun s2 => s2.fullPath = ident.stack_path) = none := by
      rw [List.find?_eq_none]
      intro s hmem
      simp [hnone s hmem]
    simp [get_resource_by_id, hfind]

/-- Witness for explicit resolution: with stacks at paths `""`, `"A"` and
`"A/B"` all defining the same logical id, explicit resolution at stack path
`"A"` returns only that stack's resource, and an unmatched path yields
`none`. -/
theorem get_resource_by_id_explicit_witness :
    get_resource_by_id
      [⟨"", "", [("Function1", ⟨some "T", some "RootBody"⟩)]⟩,
       ⟨"", "A", [("Function1", ⟨some "T", some "ABody"⟩)]⟩,
       ⟨"A", "B", [("Function1", ⟨some "T", some "ABBody"⟩)]⟩]
      ⟨"A", "Function1"⟩ true = some ⟨some "T", some "ABody"⟩ ∧
    get_resource_by_id
      [⟨"", "", [("Function1", ⟨some "T", some "RootBody"⟩)]⟩,
       ⟨"", "A", [("Function1", ⟨some "T", some "ABody"⟩)]⟩,
       ⟨"A", "B", [("Function1", ⟨some "T", some "ABBody"⟩)]⟩]
      ⟨"C", "Function1"⟩ true = none := by
  constructor
  · have h := (get_resource_by_id_explicit
      [⟨"", "", [("Function1", ⟨some "T", some "RootBody"⟩)]⟩,
       ⟨"", "A", [("Function1", ⟨some "T", some "ABody"⟩)]⟩,
       ⟨"A", "B", [("Function1", ⟨some "T", some "ABBody"⟩)]⟩]
      ⟨"A", "Function1"⟩ (by decide)).1
      ⟨"", "A", [("Function1", ⟨some "T", some "ABody"⟩)]⟩ (by decide) (by decide)
    rw [h]
    decide
  · exact (get_resource_by_id_explicit
      [⟨"", "", [("Function1", ⟨some "T", some "RootBody"⟩)]⟩,
       ⟨"", "A", [("Function1", ⟨some "T", some "ABody"⟩)]⟩,
       ⟨"A", "B", [("Function1", ⟨some "T", some "ABBody"⟩)]⟩]
      ⟨"C", "Function1"⟩ (by decide)).2 (by decide)

/-- C7: the type scan emits exactly the identifiers of resources whose `Type`
equals the type string — each one the parse of the owning stack's full path
joined with the logical id — concatenating per-stack contributions in stack
list order (so the output is additive over list decomposition), and yields
the empty sequence, never a sentinel, when nothing matches. -/
theorem get_resources_by_type_scan (stks : List Stack) (ty : String) :
    (∀ rid, rid ∈ get_resources_by_type stks ty ↔
      ∃ s ∈ stks, ∃ p ∈ s.resources, p.2.type = some ty ∧
        rid = ResourceIdentifier.parse (pathJoin s.fullPath p.1)) ∧
    (∀ pre post, stks = pre ++ post →
      get_resources_by_type stks ty =
        get_resources_by_type pre ty ++ get_resources_by_type post ty) ∧
    ((∀ s ∈ stks, ∀ p ∈ s.resources, p.2.type ≠ some ty) →
      get_resources_by_type stks ty = []) := by
  refine ⟨?_, ?_, ?_⟩
  · intro rid
    induction stks with
    | nil => simp [get_resources_by_type]
    | cons s rest ih =>
      simp only [get_resources_by_type, List.mem_append, ih, stackTypeIdents,
        List.mem_map, List.mem_filter]
      constructor
      · rintro (⟨p, ⟨hp, hty⟩, hrid⟩ | ⟨s2, hs2, p, hp, hty, hrid⟩)
        · exact ⟨s, List.mem_cons_self s rest, p, hp, by simpa using hty, hrid.symm⟩
        · exact ⟨s2, List.mem_cons_of_mem s hs2, p, hp, hty, hrid⟩
      · rintro ⟨s2, hs2, p, hp, hty, hrid⟩
        rcases List.mem_cons.mp hs2 with heq | hmem
        · subst heq
          exact Or.inl ⟨p, ⟨hp, by simpa using hty⟩, hrid.symm⟩
        · exact Or.inr ⟨s2, hmem, p, hp, hty, hrid⟩
  · intro pre post hsplit
    subst hsplit
    induction pre with
    | nil => simp [get_resources_by_type]
    | cons s rest ih => simp [get_resources_by_type, ih]
  · intro hnone
    induction stks with
    | nil => rfl
    | cons s rest ih =>
      have hs : stackTypeIdents s ty = [] := by
        simp only [stackTypeIdents, List.map_eq_nil_iff, List.filter_eq_nil_iff]
        intro p hp
        simpa using hnone s (List.mem_cons_self s rest) p hp
      have hrest : get_resources_by_type rest ty = [] :=
        ih fun s2 hm p hp => hnone s2 (List.mem_cons_of_mem s hm) p hp
      simp [get_resources_by_type, hs, hrest]

/-- Witness for the type scan: on the unit-test fixture the scan for
`TypeA` yields the root's identifier then the nested stack's identifier in
that order, and a type matching nothing yields the empty sequence. -/
theorem get_resources_by_type_scan_witness :
    get_resources_by_type
      [⟨"", "", [("Function1", ⟨some "TypeA", some "Body1"⟩)]⟩,
       ⟨"", "NestedStack1", [("Function1", ⟨some "TypeA", some "Body2"⟩)]⟩,
       ⟨"NestedStack1", "NestedNestedStack1", [("Function2", ⟨some "TypeB", some "Body3"⟩)]⟩]
      "TypeA" =
      [⟨"", "Function1"⟩, ⟨"NestedStack1", "Function1"⟩] ∧
    get_resources_by_type
      [⟨"", "", [("Function1", ⟨some "TypeA", some "Body1"⟩)]⟩,
       ⟨"", "NestedStack1", [("Function1", ⟨some "TypeA", some "Body2"⟩)]⟩,
       ⟨"NestedStack1", "NestedNestedStack1", [("Function2", ⟨some "TypeB", some "Body3"⟩)]⟩]
      "TypeC" = [] := by
  constructor
  · decide
  · exact (get_resources_by_type_scan
      [⟨"", "", [("Function1", ⟨some "TypeA", some "Body1"⟩)]⟩,
       ⟨"", "NestedStack1", [("Function1", ⟨some "TypeA", some "Body2"⟩)]⟩,
       ⟨"NestedStack1", "NestedNestedStack1", [("Function2", ⟨some "TypeB", some "Body3"⟩)]⟩]
      "TypeC").2.2 (by decide)

/-! ## Sync Flow Factory

Embedded from src/samcli/lib/sync/sync_flow_factory.py.  The factory's
`_physical_id_mapping` is one mutable Python dict, mutated in place by
`load_physical_id_mapping` and passed (as an object reference) to every
handler constructor; a small store of addressed dicts makes that sharing
explicit. -/

/-- A physical-id mapping: an insertion-ordered dict from logical id to
physical id. -/
abbrev PhysicalIdDict := List (String × String)

/-- An address of one mutable dict. -/
abbrev Addr := Nat

/-- The mutable dicts, by address. -/
abbrev Store := Addr → PhysicalIdDict

def Store.read (σ : Store) (a : Addr) : PhysicalIdDict := σ a

def Store.write (σ : Store) (a : Addr) (d : PhysicalIdDict) : Store :=
  fun b => if b = a then d else σ b

/-- Dict assignment `m[k] = v`: overwrite the binding in place when the key
exists, append it otherwise (insertion order preserved). -/
def dictInsert (m : PhysicalIdDict) (k v : String) : PhysicalIdDict :=
  if m.any (fun p => p.1 = k) then
    m.map fun p => if p.1 = k then (k, v) else p
  else m ++ [(k, v)]

/-- Assign a list of entries into a dict in order. -/
def dictInsertAll (m : PhysicalIdDict) (entries : List (String × String)) :
    PhysicalIdDict :=
  entries.foldl (fun m2 p => dictInsert m2 p.1 p.2) m

/-- Modelled from the spec: the packaging-kind constants ZIP and IMAGE of
the packagetype module, which is not among the shown sources — the exactly
two recognized values of the packaging-kind field. -/
def ZIP : String := "Zip"

/-- Modelled from the spec: see `ZIP`. -/
def IMAGE : String := "Image"

/-- Modelled from the spec: the CloudFormation-style type-discriminator
constants of the provider modules (SamBaseProvider, SamApiProvider,
CfnApiProvider), which the factory imports and whose defining modules are
not among the shown sources. -/
def LAMBDA_FUNCTION : String := "AWS::Lambda::Function"

/-- Modelled from the spec: see `LAMBDA_FUNCTION`. -/
def SERVERLESS_FUNCTION : String := "AWS::Serverless::Function"

/-- Modelled from the spec: see `LAMBDA_FUNCTION`. -/
def SERVERLESS_LAYER : String := "AWS::Serverless::LayerVersion"

/-- Modelled from the spec: see `LAMBDA_FUNCTION`. -/
def LAMBDA_LAYER : String := "AWS::Lambda::LayerVersion"

/-- Modelled from the spec: see `LAMBDA_FUNCTION`. -/
def SERVERLESS_API : String := "AWS::Serverless::Api"

/-- Modelled from the spec: see `LAMBDA_FUNCTION`. -/
def APIGATEWAY_RESTAPI : String := "AWS::ApiGateway::RestApi"

/-- Modelled from the spec: see `LAMBDA_FUNCTION`. -/
def SERVERLESS_HTTP_API : String := "AWS::Serverless::HttpApi"

/-- Modelled from the spec: see `LAMBDA_FUNCTION`. -/
def APIGATEWAY_V2_API : String := "AWS::ApiGatewayV2::Api"

/-- The SyncFlowFactory state this core uses: the flattened stack list given
at construction and the address of its `_physical_id_mapping` dict.  The
build/deploy contexts and boto config are opaque external collaborators and
are not modelled. -/
structure SyncFlowFactory where
  _stacks : List Stack
  _physical_id_mapping : Addr
deriving DecidableEq

/-- The outcome of the external fetch of stack-resource summaries that
`load_physical_id_mapping` iterates: either the full list of (logical id,
physical id) pairs, or a failure partway through after yielding a prefix of
them (the summary collection is fetched lazily while the loop runs; the
failure itself is owned by the external collaborator). -/
inductive FetchOutcome where
  | success (entries : List (String × String))
  | failure (prefixEntries : List (String × String))
deriving DecidableEq

/-- The entries the fetch yielded before finishing or failing. -/
def FetchOutcome.entries : FetchOutcome → List (String × String)
  | .success es => es
  | .failure pre => pre

/-- Assign fetched entries one by one into the dict at address `a`, as the
loop body `self._physical_id_mapping[logical] = physical` does. -/
def writeEntries (a : Addr) : Store → List (String × String) → Store
  | σ, [] => σ
  | σ, (k, v) :: rest =>
    writeEntries a (Store.write σ a (dictInsert (Store.read σ a) k v)) rest

/-- `SyncFlowFactory.load_physical_id_mapping`: clears the factory's mapping
dict in place (`self._physical_id_mapping.clear()`), then assigns each
summary's pair into that same dict while iterating the fetch; a failure
partway stops after the yielded prefix.  The factory value (the dict's
address) is unchanged; only the store is. -/
def load_physical_id_mapping (fac : SyncFlowFactory) (σ : Store)
    (outcome : FetchOutcome) : Store :=
  writeEntries fac._physical_id_mapping
    (Store.write σ fac._physical_id_mapping []) outcome.entries

/-- A constructed handler: `ZipFunctionSyncFlow` or `ImageFunctionSyncFlow`,
holding the serialized resource identifier it was built from and the dict it
was handed as its physical-id mapping — by address, because Python passes
the factory's dict object itself.  The build/deploy contexts and stack list
it also receives are opaque here. -/
inductive SyncFlow where
  | zipFunction (resource_id : String) (physical_id_mapping : Addr)
  | imageFunction (resource_id : String) (physical_id_mapping : Addr)
deriving DecidableEq

/-- The dict address a handler was given as its physical-id mapping. -/
def SyncFlow.mappingAddr : SyncFlow → Addr
  | .zipFunction _ a => a
  | .imageFunction _ a => a

/-- The physical-id mapping a handler holds, as observed through the store:
the current contents of the dict it was handed. -/
def SyncFlow.heldMapping (f : SyncFlow) (σ : Store) : PhysicalIdDict :=
  Store.read σ f.mappingAddr

/-- The type of the creation functions held in the dispatch table. -/
abbrev FlowCtor := SyncFlowFactory → String → Resource → Option SyncFlow

/-- `SyncFlowFactory._create_lambda_flow`: reads the packaging kind from the
resource's Properties with ZIP as the default when Properties or the
PackageType field is absent; ZIP yields a zip-function flow, IMAGE an
image-function flow, anything else None. -/
def _create_lambda_flow (fac : SyncFlowFactory) (resource_identifier : String)
    (resource : Resource) : Option SyncFlow :=
  let package_type := resource.packageType.getD ZIP
  if package_type = ZIP then
    some (SyncFlow.zipFunction resource_identifier fac._physical_id_mapping)
  else if package_type = IMAGE then
    some (SyncFlow.imageFunction resource_identifier fac._physical_id_mapping)
  else none

/-- `SyncFlowFactory._create_layer_flow`: a bodiless stub (`pass`), so the
call returns None. -/
def _create_layer_flow (_fac : SyncFlowFactory) (_rid : String)
    (_resource : Resource) : Option SyncFlow := none

/-- `SyncFlowFactory._create_rest_api_flow`: a bodiless stub (`pass`), so
the call returns None. -/
def _create_rest_api_flow (_fac : SyncFlowFactory) (_rid : String)
    (_resource : Resource) : Option SyncFlow := none

/-- `SyncFlowFactory._create_api_flow`: a bodiless stub (`pass`), so the
call returns None. -/
def _create_api_flow (_fac : SyncFlowFactory) (_rid : String)
    (_resource : Resource) : Option SyncFlow := none

/-- `SyncFlowFactory.FLOW_FACTORY_FUNCTIONS`: the static dispatch table from
resource type string to creation function. -/
def FLOW_FACTORY_FUNCTIONS (ty : String) : Option FlowCtor :=
  if ty = LAMBDA_FUNCTION then some _create_lambda_flow
  else if ty = SERVERLESS_FUNCTION then some _create_lambda_flow
  else if ty = SERVERLESS_LAYER then some _create_layer_flow
  else if ty = LAMBDA_LAYER then some _create_layer_flow
  else if ty = SERVERLESS_API then some _create_rest_api_flow
  else if ty = APIGATEWAY_RESTAPI then some _create_rest_api_flow
  else if ty = SERVERLESS_HTTP_API then some _create_api_flow
  else if ty = APIGATEWAY_V2_API then some _create_api_flow
  else none

/-- Modelled from the spec: the resolver mode used when `create_sync_flow`
calls `get_resource_by_id` without naming a mode.  The default lives in the
provider module's declaration, which is not among the shown sources; per the
spec, resolution is explicit-by-default given a concrete identifier. -/
def getResourceByIdDefault (stks : List Stack) (ident : ResourceIdentifier) :
    Option Resource :=
  get_resource_by_id stks ident true

/-- `SyncFlowFactory.create_sync_flow`: resolves the identifier against the
factory's stacks, returns None when the resource is not found or its Type
field is absent or falsy, looks the Type up in the static dispatch table
(None when absent), and otherwise invokes the creation function on the
factory, the serialized identifier and the resource. -/
def create_sync_flow (fac : SyncFlowFactory) (rid : ResourceIdentifier) :
    Option SyncFlow :=
  match getResourceByIdDefault fac._stacks rid with
  | none => none
  | some resource =>
    match resource.type with
    | none => none
    | some ty =>
      if ty = "" then none
      else
        match FLOW_FACTORY_FUNCTIONS ty with
        | none => none
        | some ctor => ctor fac rid.toString resource

/-- A concrete factory over a one-stack fixture exercising every dispatch
shape, its mapping dict at store address 0. -/
def exampleFactory : SyncFlowFactory :=
  ⟨[⟨"", "",
     [("ZipFn", ⟨some LAMBDA_FUNCTION, some ZIP⟩),
      ("ImgFn", ⟨some LAMBDA_FUNCTION, some IMAGE⟩),
      ("NoPkgFn", ⟨some SERVERLESS_FUNCTION, none⟩),
      ("OddFn", ⟨some LAMBDA_FUNCTION, some "Odd"⟩),
      ("Layer", ⟨some SERVERLESS_LAYER, none⟩),
      ("RestApi", ⟨some APIGATEWAY_RESTAPI, none⟩),
      ("Bucket", ⟨some "AWS::S3::Bucket", none⟩),
      ("NoType", ⟨none, none⟩)]⟩],
   0⟩

/-- A concrete store holding one entry in the factory's dict, as a prior
successful load would leave it. -/
def exampleStoreOld : Store := Store.write (fun _ => []) 0 [("ZipFn", "old-id")]

theorem store_read_write_same (σ : Store) (a : Addr) (d : PhysicalIdDict) :
    Store.read (Store.write σ a d) a = d := by
  simp [Store.read, Store.write]

theorem store_read_write_other (σ : Store) (a b : Addr) (d : PhysicalIdDict)
    (hne : b ≠ a) : Store.read (Store.write σ a d) b = Store.read σ b := by
  simp [Store.read, Store.write, hne]

theorem read_writeEntries_same (a : Addr) (σ : Store)
    (es : List (String × String)) :
    Store.read (writeEntries a σ es) a = dictInsertAll (Store.read σ a) es := by
  induction es generalizing σ with
  | nil => rfl
  | cons p rest ih =>
    obtain ⟨k, v⟩ := p
    simp only [writeEntries, dictInsertAll, List.foldl_cons]
    rw [ih, store_read_write_same]
    rfl

theorem read_writeEntries_other (a b : Addr) (σ : Store)
    (es : List (String × String)) (hne : b ≠ a) :
    Store.read (writeEntries a σ es) b = Store.read σ b := by
  induction es generalizing σ with
  | nil => rfl
  | cons p rest ih =>
    obtain ⟨k, v⟩ := p
    simp only [writeEntries]
    rw [ih, store_read_write_other σ a b _ hne]

theorem load_read_same (fac : SyncFlowFactory) (σ : Store) (o : FetchOutcome) :
    Store.read (load_physical_id_mapping fac σ o) fac._physical_id_mapping =
      dictInsertAll [] o.entries := by
  simp only [load_physical_id_mapping]
  rw [read_writeEntries_same, store_read_write_same]

/-- C4 (amended): `load_physical_id_mapping` clears the mapping dict first
and then applies exactly the entries the fetch yielded: on success the full
new snapshot, on a failure partway the prefix fetched before the error
(possibly empty, possibly a partial application) — the mapping from the
prior successful load is never what is left after a failed load that
fetched anything different, because it is discarded up front.  Dicts at
other addresses are untouched. -/
theorem load_clears_then_applies_fetched (fac : SyncFlowFactory) (σ : Store)
    (o : FetchOutcome) :
    Store.read (load_physical_id_mapping fac σ o) fac._physical_id_mapping =
      dictInsertAll [] o.entries ∧
    (∀ b, b ≠ fac._physical_id_mapping →
      Store.read (load_physical_id_mapping fac σ o) b = Store.read σ b) := by
  refine ⟨load_read_same fac σ o, ?_⟩
  intro b hb
  simp only [load_physical_id_mapping]
  rw [read_writeEntries_other _ _ _ _ hb, store_read_write_other _ _ _ _ hb]

/-- Witness for the amended load behavior: a failing fetch that yielded one
entry leaves exactly that entry (partial application), and another dict
address is untouched. -/
theorem load_clears_then_applies_fetched_witness :
    Store.read (load_physical_id_mapping exampleFactory exampleStoreOld
      (FetchOutcome.failure [("OtherFn", "half-id")]))
      exampleFactory._physical_id_mapping =
      [("OtherFn", "half-id")] ∧
    Store.read (load_physical_id_mapping exampleFactory exampleStoreOld
      (FetchOutcome.failure [("OtherFn", "half-id")])) 1 =
      Store.read exampleStoreOld 1 := by
  constructor
  · have h := (load_clears_then_applies_fetched exampleFactory exampleStoreOld
      (FetchOutcome.failure [("OtherFn", "half-id")])).1
    rw [h]
    decide
  · exact (load_clears_then_applies_fetched exampleFactory exampleStoreOld
      (FetchOutcome.failure [("OtherFn", "half-id")])).2 1 (by decide)

/-- Counterexample to the claim that a failed load leaves the stale mapping
of the prior successful load: after a prior load left one entry, a fetch
failing before yielding anything leaves the mapping empty — not the prior
mapping — because the dict is cleared before the fetch is consumed. -/
theorem load_failure_counterexample :
    Store.read (load_physical_id_mapping exampleFactory exampleStoreOld
      (FetchOutcome.failure [])) 0 = [] ∧
    Store.read exampleStoreOld 0 = [("ZipFn", "old-id")] ∧
    Store.read (load_physical_id_mapping exampleFactory exampleStoreOld
      (FetchOutcome.failure [])) 0 ≠ Store.read exampleStoreOld 0 := by
  decide

theorem flow_ctor_mapping_addr (ty : String) (ctor : FlowCtor)
    (htab : FLOW_FACTORY_FUNCTIONS ty = some ctor)
    (fac : SyncFlowFactory) (rid : String) (r : Resource) (f : SyncFlow)
    (h : ctor fac rid r = some f) :
    f.mappingAddr = fac._physical_id_mapping := by
  unfold FLOW_FACTORY_FUNCTIONS at htab
  split_ifs at htab <;> cases htab <;>
    simp only [_create_lambda_flow, _create_layer_flow, _create_rest_api_flow,
      _create_api_flow] at h <;>
    first
    | (split_ifs at h <;> cases h <;> rfl)
    | cases h

theorem create_sync_flow_mapping_addr (fac : SyncFlowFactory)
    (rid : ResourceIdentifier) (f : SyncFlow)
    (h : create_sync_flow fac rid = some f) :
    f.mappingAddr = fac._physical_id_mapping := by
  unfold create_sync_flow at h
  split at h
  · cases h
  · rename_i r hres
    split at h
    · cases h
    · rename_i ty hty
      split at h
      · cases h
      · split at h
        · cases h
        · rename_i ctor htab
          exact flow_ctor_mapping_addr ty ctor htab fac rid.toString r f h

/-- C3 (amended): a handler built by `create_sync_flow` is handed the
factory's mapping dict itself, and `load_physical_id_mapping` clears and
repopulates that same dict in place — so after a reload, a handler built
BEFORE the reload observes exactly the reloaded contents (the fetched
entries assigned over an empty dict), not the contents from when it was
built. -/
theorem handler_sees_refreshed_mapping (fac : SyncFlowFactory)
    (rid : ResourceIdentifier) (f : SyncFlow) (σ : Store) (o : FetchOutcome)
    (h : create_sync_flow fac rid = some f) :
    SyncFlow.heldMapping f (load_physical_id_mapping fac σ o) =
      dictInsertAll [] o.entries := by
  rw [SyncFlow.heldMapping, create_sync_flow_mapping_addr fac rid f h]
  exact load_read_same fac σ o

/-- Witness for the refreshed-mapping behavior: the zip flow built for the
fixture's zip function, once the factory reloads, reads the reloaded
entry. -/
theorem handler_sees_refreshed_mapping_witness :
    create_sync_flow exampleFactory ⟨"", "ZipFn"⟩ =
      some (SyncFlow.zipFunction "ZipFn" 0) ∧
    SyncFlow.heldMapping (SyncFlow.zipFunction "ZipFn" 0)
      (load_physical_id_mapping exampleFactory exampleStoreOld
        (FetchOutcome.success [("ZipFn", "new-id")])) =
      [("ZipFn", "new-id")] := by
  constructor
  · decide
  · have h := handler_sees_refreshed_mapping exampleFactory ⟨"", "ZipFn"⟩
      (SyncFlow.zipFunction "ZipFn" 0) exampleStoreOld
      (FetchOutcome.success [("ZipFn", "new-id")]) (by decide)
    rw [h]
    decide

/-- Counterexample to the claim that a handler built before a reload keeps
seeing the old mapping: the zip flow built while the dict held the old
entry reads the NEW entry after `load_physical_id_mapping` runs, because it
holds the same dict the factory cleared and repopulated in place. -/
theorem handler_stale_view_counterexample :
    create_sync_flow exampleFactory ⟨"", "ZipFn"⟩ =
      some (SyncFlow.zipFunction "ZipFn" 0) ∧
    SyncFlow.heldMapping (SyncFlow.zipFunction "ZipFn" 0) exampleStoreOld =
      [("ZipFn", "old-id")] ∧
    SyncFlow.heldMapping (SyncFlow.zipFunction "ZipFn" 0)
      (load_physical_id_mapping exampleFactory exampleStoreOld
        (FetchOutcome.success [("ZipFn", "new-id")])) ≠
      SyncFlow.heldMapping (SyncFlow.zipFunction "ZipFn" 0) exampleStoreOld := by
  decide

/-- C1: `create_sync_flow` resolves the identifier through
`get_resource_by_id` in the default mode, which is explicit — so resolution
succeeds only when the identifier's stack path equals some stack's full path
exactly, and when no stack's full path matches, the flow is None. -/
theorem create_sync_flow_resolves_explicit (fac : SyncFlowFactory)
    (rid : ResourceIdentifier) :
    getResourceByIdDefault fac._stacks rid =
      get_resource_by_id fac._stacks rid true ∧
    ((∀ s ∈ fac._stacks, s.fullPath ≠ rid.stack_path) →
      create_sync_flow fac rid = none) := by
  refine ⟨rfl, ?_⟩
  intro hnone
  have hfind : fac._stacks.find? (fun s2 => s2.fullPath = rid.stack_path) = none := by
    rw [List.find?_eq_none]
    intro s hm
    simp [hnone s hm]
  have hres : getResourceByIdDefault fac._stacks rid = none := by
    simp [getResourceByIdDefault, get_resource_by_id, hfind]
  simp [create_sync_flow, hres]

/-- Witness for explicit-by-default resolution: a stack path matching no
stack's full path yields None even though the logical id exists in the
(only) stack. -/
theorem create_sync_flow_resolves_explicit_witness :
    create_sync_flow exampleFactory ⟨"Missing", "ZipFn"⟩ = none := by
  exact (create_sync_flow_resolves_explicit exampleFactory
    ⟨"Missing", "ZipFn"⟩).2 (by decide)

/-- C8: `create_sync_flow` yields None, never an error, when the resource
cannot be resolved, when the resolved resource has no Type field, and when
its Type has no entry in the static dispatch table — unrecognized types are
silently skipped. -/
theorem create_sync_flow_not_applicable (fac : SyncFlowFactory)
    (rid : ResourceIdentifier) :
    (getResourceByIdDefault fac._stacks rid = none →
      create_sync_flow fac rid = none) ∧
    (∀ r, getResourceByIdDefault fac._stacks rid = some r → r.type = none →
      create_sync_flow fac rid = none) ∧
    (∀ r ty, getResourceByIdDefault fac._stacks rid = some r →
      r.type = some ty → FLOW_FACTORY_FUNCTIONS ty = none →
      create_sync_flow fac rid = none) := by
  refine ⟨?_, ?_, ?_⟩
  · intro h
    simp [create_sync_flow, h]
  · intro r hres hty
    simp [create_sync_flow, hres, hty]
  · intro r ty hres hty htab
    by_cases hne : ty = ""
    · simp [create_sync_flow, hres, hty, hne]
    · simp [create_sync_flow, hres, hty, hne, htab]

/-- Witness for the not-applicable paths: an unresolvable logical id, a
resource with no Type, and a resource whose Type has no dispatch entry each
yield None. -/
theorem create_sync_flow_not_applicable_witness :
    create_sync_flow exampleFactory ⟨"", "Nothing"⟩ = none ∧
    create_sync_flow exampleFactory ⟨"", "NoType"⟩ = none ∧
    create_sync_flow exampleFactory ⟨"", "Bucket"⟩ = none := by
  refine ⟨?_, ?_, ?_⟩
  · exact (create_sync_flow_not_applicable exampleFactory ⟨"", "Nothing"⟩).1
      (by decide)
  · exact (create_sync_flow_not_applicable exampleFactory ⟨"", "NoType"⟩).2.1
      ⟨none, none⟩ (by decide) rfl
  · exact (create_sync_flow_not_applicable exampleFactory ⟨"", "Bucket"⟩).2.2
      ⟨some "AWS::S3::Bucket", none⟩ "AWS::S3::Bucket" (by decide) rfl (by rfl)

/-- C2 (amended): the Lambda-flow constructor branches on the packaging kind
in Properties with ZIP as the default for an absent kind: kind ZIP — or a
missing kind — yields a zip-flow instance, kind IMAGE yields an image-flow
instance, and any other present kind yields None. -/
theorem lambda_flow_package_type_branch (fac : SyncFlowFactory)
    (rid : ResourceIdentifier) (r : Resource) (ty : String)
    (hres : getResourceByIdDefault fac._stacks rid = some r)
    (hty : r.type = some ty)
    (hfn : ty = LAMBDA_FUNCTION ∨ ty = SERVERLESS_FUNCTION) :
    ((r.packageType = some ZIP ∨ r.packageType = none) →
      create_sync_flow fac rid =
        some (SyncFlow.zipFunction rid.toString fac._physical_id_mapping)) ∧
    (r.packageType = some IMAGE →
      create_sync_flow fac rid =
        some (SyncFlow.imageFunction rid.toString fac._physical_id_mapping)) ∧
    (∀ pt, r.packageType = some pt → pt ≠ ZIP → pt ≠ IMAGE →
      create_sync_flow fac rid = none) := by
  have hne : ty ≠ "" := by
    rcases hfn with h1 | h1 <;> subst h1 <;> decide
  have htab : FLOW_FACTORY_FUNCTIONS ty = some _create_lambda_flow := by
    rcases hfn with h1 | h1 <;> subst h1 <;> rfl
  have hcreate : create_sync_flow fac rid = _create_lambda_flow fac rid.toString r := by
    simp [create_sync_flow, hres, hty, hne, htab]
  refine ⟨?_, ?_, ?_⟩
  · rintro (hz | hz) <;> simp [hcreate, _create_lambda_flow, hz]
  · intro hi
    simp [hcreate, _create_lambda_flow, hi, ZIP, IMAGE]
  · intro pt hpt hptz hpti
    simp [hcreate, _create_lambda_flow, hpt, hptz, hpti]

/-- Witness for the packaging-kind branch: in the fixture, the explicit-zip
function and the missing-kind function both yield zip flows, the image
function an image flow, and an unrecognized kind None. -/
theorem lambda_flow_package_type_branch_witness :
    create_sync_flow exampleFactory ⟨"", "ZipFn"⟩ =
      some (SyncFlow.zipFunction "ZipFn" 0) ∧
    create_sync_flow exampleFactory ⟨"", "ImgFn"⟩ =
      some (SyncFlow.imageFunction "ImgFn" 0) ∧
    create_sync_flow exampleFactory ⟨"", "OddFn"⟩ = none := by
  refine ⟨?_, ?_, ?_⟩
  · have h := (lambda_flow_package_type_branch exampleFactory ⟨"", "ZipFn"⟩
      ⟨some LAMBDA_FUNCTION, some ZIP⟩ LAMBDA_FUNCTION (by decide) rfl
      (Or.inl rfl)).1 (Or.inl rfl)
    rw [h]
    decide
  · have h := (lambda_flow_package_type_branch exampleFactory ⟨"", "ImgFn"⟩
      ⟨some LAMBDA_FUNCTION, some IMAGE⟩ LAMBDA_FUNCTION (by decide) rfl
      (Or.inl rfl)).2.1 rfl
    rw [h]
    decide
  · exact (lambda_flow_package_type_branch exampleFactory ⟨"", "OddFn"⟩
      ⟨some LAMBDA_FUNCTION, some "Odd"⟩ LAMBDA_FUNCTION (by decide) rfl
      (Or.inl rfl)).2.2 "Odd" rfl (by decide) (by decide)

/-- Counterexample to the claim that a missing packaging kind yields
not-applicable: a Serverless-function resource with no Properties at all
yields a zip-flow instance from `create_sync_flow`, not None, because the
constructor defaults an absent PackageType to ZIP. -/
theorem lambda_flow_missing_package_type_counterexample :
    create_sync_flow exampleFactory ⟨"", "NoPkgFn"⟩ =
      some (SyncFlow.zipFunction "NoPkgFn" 0) ∧
    create_sync_flow exampleFactory ⟨"", "NoPkgFn"⟩ ≠ none := by
  decide

/-- C10: every layer and API type string is present in the dispatch table,
yet its creation function is a bodiless stub, so a resolved resource of any
of these types yields None from `create_sync_flow` — indistinguishable at
the interface from an unrecognized type. -/
theorem stub_types_yield_none (fac : SyncFlowFactory)
    (rid : ResourceIdentifier) (r : Resource) (ty : String)
    (hmem : ty ∈ [SERVERLESS_LAYER, LAMBDA_LAYER, SERVERLESS_API,
      APIGATEWAY_RESTAPI, SERVERLESS_HTTP_API, APIGATEWAY_V2_API])
    (hres : getResourceByIdDefault fac._stacks rid = some r)
    (hty : r.type = some ty) :
    FLOW_FACTORY_FUNCTIONS ty ≠ none ∧ create_sync_flow fac rid = none := by
  fin_cases hmem <;>
    exact ⟨by
      simp [FLOW_FACTORY_FUNCTIONS, LAMBDA_FUNCTION, SERVERLESS_FUNCTION,
        SERVERLESS_LAYER, LAMBDA_LAYER, SERVERLESS_API, APIGATEWAY_RESTAPI,
        SERVERLESS_HTTP_API, APIGATEWAY_V2_API], by
      simp [create_sync_flow, hres, hty, FLOW_FACTORY_FUNCTIONS,
        LAMBDA_FUNCTION, SERVERLESS_FUNCTION, SERVERLESS_LAYER, LAMBDA_LAYER,
        SERVERLESS_API, APIGATEWAY_RESTAPI, SERVERLESS_HTTP_API,
        APIGATEWAY_V2_API, _create_layer_flow, _create_rest_api_flow,
        _create_api_flow]⟩

/-- Witness for the stub dispatch entries: the fixture's layer resource is
recognized by the table but yields None. -/
theorem stub_types_yield_none_witness :
    FLOW_FACTORY_FUNCTIONS SERVERLESS_LAYER ≠ none ∧
    create_sync_flow exampleFactory ⟨"", "Layer"⟩ = none := by
  exact stub_types_yield_none exampleFactory ⟨"", "Layer"⟩
    ⟨some SERVERLESS_LAYER, none⟩ SERVERLESS_LAYER (by decide) (by decide) rfl

end SamCli
